import Mathlib

/-!
Verification of the tab-resolution and range-scoping layer of a
document-editing tool server.  The Python source (`server.py`) is embedded
shallowly: its dict-shaped document snapshots become structures with
`Option` fields (a missing key is `none`, and `Option.getD` mirrors
`dict.get` with a default), its loops become structural recursions, and
the generic edit-request dictionaries handled by `batch_update` become
association lists over a JSON-like value type.
-/

namespace GDocs

/-- A text run inside a paragraph element: dict with optional `content`. -/
structure TextRun where
  content : Option String := none
deriving DecidableEq, Repr

/-- A paragraph element: dict with optional `textRun`. -/
structure ParagraphElement where
  textRun : Option TextRun := none
deriving DecidableEq, Repr

/-- Paragraph style: dict with optional `namedStyleType`. -/
structure ParagraphStyle where
  namedStyleType : Option String := none
deriving DecidableEq, Repr

/-- A paragraph: optional `paragraphStyle` dict and a list of `elements`. -/
structure Paragraph where
  paragraphStyle : Option ParagraphStyle := none
  elements : List ParagraphElement := []
deriving DecidableEq, Repr

/-- A structural element of a body: optional `paragraph`, optional `endIndex`.
Elements carrying other payloads (tables, section breaks) are modelled by
`paragraph := none`; the extractor skips them and only `endIndex` matters
elsewhere. -/
structure StructuralElement where
  paragraph : Option Paragraph := none
  endIndex : Option Int := none
deriving DecidableEq, Repr

/-- A content body: dict whose `content` key holds the structural elements
(`body.get "content" []`). -/
structure Body where
  content : List StructuralElement := []
deriving DecidableEq, Repr

/-- Tab properties dict: optional `tabId`, `title`, `index`. -/
structure TabProperties where
  tabId : Option String := none
  title : Option String := none
  index : Option Int := none
deriving DecidableEq, Repr

/-- The `documentTab` dict of a tab: optional `body`. -/
structure DocumentTab where
  body : Option Body := none
deriving DecidableEq, Repr

/-- A tab: optional `tabProperties`, optional `documentTab`, and the list of
`childTabs` (missing key modelled as the empty list, matching
`tab.get "childTabs" []`). -/
inductive Tab : Type where
  | mk (tabProperties : Option TabProperties) (documentTab : Option DocumentTab)
       (childTabs : List Tab) : Tab

def Tab.tabProperties : Tab → Option TabProperties
  | .mk p _ _ => p

def Tab.documentTab : Tab → Option DocumentTab
  | .mk _ d _ => d

def Tab.childTabs : Tab → List Tab
  | .mk _ _ c => c

/-- A document snapshot: optional `title`, optional legacy flat `body`, and
the `tabs` list (missing key modelled as the empty list, matching
`doc.get "tabs" []`). -/
structure Document where
  title : Option String := none
  body : Option Body := none
  tabs : List Tab := []

/-- Entry produced by `_flatten_tabs` for one tab. -/
structure FlatEntry where
  tabId : String
  title : String
  index : Int
  depth : Nat
  tab : Tab

/-! ## Content extractor (`_extract_text_from_body`) -/

/-- Source table `heading_map`: named style to markdown block marker. -/
def heading_map : List (String × String) :=
  [("HEADING_1", "# "), ("HEADING_2", "## "), ("HEADING_3", "### "),
   ("HEADING_4", "#### "), ("HEADING_5", "##### "), ("HEADING_6", "###### "),
   ("TITLE", "# "), ("SUBTITLE", "## ")]

/-- Python `s.rstrip "\n"`: drop every trailing newline character. -/
def rstripNewlines (s : String) : String :=
  String.mk ((s.data.reverse.dropWhile (fun c => c == '\n')).reverse)

/-- The `line = "".join(line_parts)` computation: concatenate, in order, the
`content` of every element that carries a `textRun`. -/
def paragraphLine (para : Paragraph) : String :=
  String.join (para.elements.filterMap (fun e =>
    e.textRun.map (fun tr => tr.content.getD "")))

/-- The named style of a paragraph:
`para.get("paragraphStyle", dict()).get("namedStyleType", "NORMAL_TEXT")`. -/
def paragraphNamedStyle (para : Paragraph) : String :=
  ((para.paragraphStyle.getD {}).namedStyleType).getD "NORMAL_TEXT"

/-- The body of the `for element in content` loop of
`_extract_text_from_body`, producing the `parts` list. -/
def extractParts : List StructuralElement → List String
  | [] => []
  | el :: rest =>
    match el.paragraph with
    | none => extractParts rest
    | some para =>
      let named_style := paragraphNamedStyle para
      let line := paragraphLine para
      let pfx := (heading_map.lookup named_style).getD ""
      let line_stripped := rstripNewlines line
      if line_stripped ≠ "" then (pfx ++ line_stripped) :: extractParts rest
      else if pfx = "" then "" :: extractParts rest
      else extractParts rest

/-- Source function `_extract_text_from_body`: markdown-ish rendering of a body. -/
def _extract_text_from_body (body : Body) : String :=
  String.intercalate "\n" (extractParts body.content)

/-! ## Offset calculator (`_body_end_index`) -/

/-- Source function `_body_end_index`: 1 for an empty body, else
`content[-1].get("endIndex", 1) - 1`. -/
def _body_end_index (body : Body) : Int :=
  match body.content.getLast? with
  | none => 1
  | some last => last.endIndex.getD 1 - 1

/-! ## Tab tree flattener (`_flatten_tabs`) -/

/-- The flat entry built for one tab at a given depth. -/
def flatEntryOf (tab : Tab) (depth : Nat) : FlatEntry :=
  let props := tab.tabProperties.getD {}
  { tabId := props.tabId.getD ""
    title := props.title.getD ""
    index := props.index.getD 0
    depth := depth
    tab := tab }

/-- Source function `_flatten_tabs`: pre-order flattening with depth annotation.  The
source appends the entry for each tab and then, child by child, extends the
result with `_flatten_tabs([child], depth + 1)`; those per-child extends
concatenate to the flattening of the whole `childTabs` list at `depth + 1`
(`flattenTabs_singleton_append` below makes this precise). -/
def _flatten_tabs : List Tab → (depth : Nat := 0) → List FlatEntry
  | [], _ => []
  | Tab.mk props dt children :: rest, depth =>
      flatEntryOf (Tab.mk props dt children) depth ::
        (_flatten_tabs children (depth + 1) ++ _flatten_tabs rest depth)

/-! ## Tab lookup (`_find_tab`) -/

/-- Python `str.lower()`, character by character (exact for the ASCII
titles exercised here). -/
def strLower (s : String) : String := String.mk (s.data.map Char.toLower)

/-- The `for entry in flat` loop of `_find_tab`. -/
def findTabLoop (tab_id tab_title : String) : List FlatEntry → Option Tab
  | [] => none
  | e :: rest =>
    if tab_id ≠ "" ∧ e.tabId = tab_id then some e.tab
    else if tab_title ≠ "" ∧ strLower e.title = strLower tab_title then some e.tab
    else findTabLoop tab_id tab_title rest

/-- Source function `_find_tab`: find a tab by id or title over the flattened tree. -/
def _find_tab (tabs : List Tab) (tab_id : String := "") (tab_title : String := "") :
    Option Tab :=
  findTabLoop tab_id tab_title (_flatten_tabs tabs)

/-! ## Tab resolver (`_resolve_tab`) -/

/-- Python `repr` of a string, for the strings used here (no embedded quote
or backslash escaping is modelled). -/
def quoteRepr (s : String) : String := "\x27" ++ s ++ "\x27"

/-- The message of the `ValueError` raised on a failed lookup:
Tab not found: id=... title=... with both values repr-quoted. -/
def tabNotFoundMsg (tab_id tab_title : String) : String :=
  "Tab not found: id=" ++ quoteRepr tab_id ++ " title=" ++ quoteRepr tab_title

/-- Source function `_resolve_tab`: returns the selected tab body and canonical tab id, or
raises (modelled as `Except.error`) when a requested tab is not found. -/
def _resolve_tab (doc : Document) (tab_id : String := "") (tab_title : String := "") :
    Except String (Body × String) :=
  let tabs := doc.tabs
  if tabs.isEmpty then
    -- Fallback for docs without tabs
    .ok (doc.body.getD {}, "")
  else if tab_id ≠ "" ∨ tab_title ≠ "" then
    match _find_tab tabs tab_id tab_title with
    | none => .error (tabNotFoundMsg tab_id tab_title)
    | some tab =>
      let props := tab.tabProperties.getD {}
      let body := (tab.documentTab.getD {}).body.getD {}
      .ok (body, props.tabId.getD "")
  else
    match tabs with
    | [] => .ok (doc.body.getD {}, "")  -- unreachable: tabs nonempty here
    | first :: _ =>
      let props := first.tabProperties.getD {}
      let body := (first.documentTab.getD {}).body.getD {}
      .ok (body, props.tabId.getD "")

/-! ## Generic edit-request values and the scope rewriter of `batch_update`

The requests handled by `batch_update` are arbitrary JSON-shaped
dictionaries.  They are embedded as `JVal`, with dictionaries as
association lists in key order (Python dicts preserve insertion order;
assignment of a fresh key appends, assignment of an existing key updates
in place). -/

inductive JVal : Type where
  | str (s : String) : JVal
  | num (n : Int) : JVal
  | bool (b : Bool) : JVal
  | obj (fields : List (String × JVal)) : JVal
  | arr (elems : List JVal) : JVal

/-- A dict: association list of fields. -/
abbrev JDict := List (String × JVal)

/-- Python `key in d`. -/
def hasKey (k : String) (fs : JDict) : Bool :=
  fs.any (fun p => p.1 == k)

/-- Python `d[key]` as an option (first occurrence wins). -/
def getKey (k : String) (fs : JDict) : Option JVal :=
  (fs.find? (fun p => p.1 == k)).map (fun p => p.2)

/-- Python `d[key] = v`: update in place when the key is present, append
otherwise. -/
def setKey (k : String) (v : JVal) (fs : JDict) : JDict :=
  if hasKey k fs then fs.map (fun p => if p.1 == k then (k, v) else p)
  else fs ++ [(k, v)]

/-- The three location-bearing field names the rewriter looks for. -/
def scopeKeys : List String := ["location", "range", "insertionLocation"]

/-- One iteration of `for key in ("location", "range", "insertionLocation")`:
if `key in op_body and "tabId" not in op_body[key]`, do
`op_body[key]["tabId"] = resolved_tab_id`.  When the value of the field is not a
dict the source raises a `TypeError` on the mutation; that is modelled as
`none`. -/
def injectKey (rid key : String) (fs : JDict) : Option JDict :=
  match getKey key fs with
  | none => some fs
  | some (JVal.obj vfs) =>
      if hasKey "tabId" vfs then some fs
      else some (setKey key (JVal.obj (vfs ++ [("tabId", JVal.str rid)])) fs)
  | some _ => none

/-- The per-`op_body` work of the injection loop: the three location keys in
order, then the `containsText`/`tabsCriteria` rule. -/
def injectBody (rid : String) (fs : JDict) : Option JDict :=
  match injectKey rid "location" fs with
  | none => none
  | some fs =>
    match injectKey rid "range" fs with
    | none => none
    | some fs =>
      match injectKey rid "insertionLocation" fs with
      | none => none
      | some fs =>
        some (if hasKey "containsText" fs && !hasKey "tabsCriteria" fs
              then fs ++ [("tabsCriteria", JVal.obj [("tabIds", JVal.arr [JVal.str rid])])]
              else fs)

/-- Loop `for op_name, op_body in req.items()`: non-dict bodies are skipped
(`continue`), dict bodies are rewritten in place. -/
def injectOp (rid : String) : String × JVal → Option (String × JVal)
  | (name, JVal.obj fs) => (injectBody rid fs).map (fun fs' => (name, JVal.obj fs'))
  | (name, v) => some (name, v)

/-- Rewrite of one request dict, entry by entry. -/
def injectReq (rid : String) : JDict → Option JDict
  | [] => some []
  | op :: rest =>
    match injectOp rid op with
    | none => none
    | some op' =>
      match injectReq rid rest with
      | none => none
      | some rest' => some (op' :: rest')

/-- The `for req in requests` loop. -/
def rewriteReqList (rid : String) : List JDict → Option (List JDict)
  | [] => some []
  | req :: rest =>
    match injectReq rid req with
    | none => none
    | some req' =>
      match rewriteReqList rid rest with
      | none => none
      | some rest' => some (req' :: rest')

/-- The scope rewrite of `batch_update`: skipped entirely when the resolved
tab id is empty (`if resolved_tab_id:`), else applied to every request. -/
def rewriteRequests (rid : String) (reqs : List JDict) : Option (List JDict) :=
  if rid ≠ "" then rewriteReqList rid reqs else some reqs

/-! ## Tool layer (pure models)

Each tool is modelled by the pure computation it performs on an
already-fetched document snapshot.  Whether a tool fetches the document at
all is part of its control flow; for the tools that fetch lazily the model
returns a `Bool` recording whether a fetch happened. -/

/-- Repeated markdown marker, Python `"#" * n`. -/
def hashes (n : Nat) : String := String.mk (List.replicate n '#')

/-- The tab-bearing body of a tab: `tab.get("documentTab", ...).get("body", ...)`. -/
def tabBody (tab : Tab) : Body :=
  (tab.documentTab.getD {}).body.getD {}

/-- The section string built for one flat entry in the all-tabs branch of
`read_document`. -/
def tabSection (e : FlatEntry) : String :=
  hashes (e.depth + 2) ++ " [" ++ e.title ++ "]\n\n" ++ _extract_text_from_body (tabBody e.tab)

/-- Tool `read_document`: returns the rendered text, or the error of the resolver. -/
def read_document (doc : Document) (tab_id : String := "") (tab_title : String := "") :
    Except String String :=
  let title := doc.title.getD "Untitled"
  let tabs := doc.tabs
  if tab_id ≠ "" ∨ tab_title ≠ "" then
    match _resolve_tab doc tab_id tab_title with
    | .error e => .error e
    | .ok (body, resolved_id) =>
      let tab := _find_tab tabs resolved_id ""
      let tab_name := match tab with
        | some t => (t.tabProperties.getD {}).title.getD ""
        | none => ""
      let text := _extract_text_from_body body
      .ok ("# " ++ title ++ " — [" ++ tab_name ++ "]\n\n" ++ text)
  else if tabs.isEmpty then
    .ok ("# " ++ title ++ "\n\n" ++ _extract_text_from_body (doc.body.getD {}))
  else
    -- sections built by `sections = [f"# \x7btitle\x7d\n"]` then appended in a loop
    let sections := (_flatten_tabs tabs).foldl
      (fun acc e => acc ++ [tabSection e]) ["# " ++ title ++ "\n"]
    .ok (String.intercalate "\n\n---\n\n" sections)

/-- Tool `append_text` (pure part): resolve the tab, compute the append offset,
prepend a newline when the offset exceeds 1, and return
(inserted text, insertion index, tab id of the insert location). -/
def append_text (doc : Document) (text : String)
    (tab_id : String := "") (tab_title : String := "") :
    Except String (String × Int × String) :=
  match _resolve_tab doc tab_id tab_title with
  | .error e => .error e
  | .ok (body, resolved_tab_id) =>
    let end_idx := _body_end_index body
    let text := if end_idx > 1 then "\n" ++ text else text
    .ok (text, end_idx, resolved_tab_id)

/-- Tab-scoping control flow of `insert_text`: with a non-empty `tab_id` the
id is used directly and the document is never fetched; only with a title
alone is the document fetched (recorded in the `Bool`) and the resolver
consulted.  Returns (fetched?, tabId put in the location, "" for none). -/
def insertTextScope (doc : Document) (tab_id tab_title : String) :
    Except String (Bool × String) :=
  if tab_id ≠ "" then .ok (false, tab_id)
  else if tab_title ≠ "" then
    match _resolve_tab doc "" tab_title with
    | .error e => .error e
    | .ok (_, resolved_tab_id) => .ok (true, resolved_tab_id)
  else .ok (false, "")

/-- Tab-scoping control flow of `replace_text`: `resolved_tab_id = tab_id`,
and only when that is empty and a title was given is the document fetched
and the resolver consulted. -/
def replaceTextScope (doc : Document) (tab_id tab_title : String) :
    Except String (Bool × String) :=
  let resolved_tab_id := tab_id
  if resolved_tab_id = "" ∧ tab_title ≠ "" then
    match _resolve_tab doc "" tab_title with
    | .error e => .error e
    | .ok (_, rid) => .ok (true, rid)
  else .ok (false, resolved_tab_id)

/-- Tab-resolution control flow of `batch_update`, identical in shape to
that of `replace_text`. -/
def batchUpdateScope (doc : Document) (tab_id tab_title : String) :
    Except String (Bool × String) :=
  let resolved_tab_id := tab_id
  if resolved_tab_id = "" ∧ tab_title ≠ "" then
    match _resolve_tab doc "" tab_title with
    | .error e => .error e
    | .ok (_, rid) => .ok (true, rid)
  else .ok (false, resolved_tab_id)

/-! ## Spec-side rendering (for the refinement statement of the extractor)

These definitions follow the words of the specification, to be compared with
`_extract_text_from_body` above. -/

/-- Heading prefix table as the spec words it: heading levels 1 to 6 map to
that many leading markers plus a space, title to a single marker, subtitle
to two, every other style to no prefix. -/
def specHeadingPfx (style : String) : String :=
  if style = "TITLE" then hashes 1 ++ " "
  else if style = "SUBTITLE" then hashes 2 ++ " "
  else if style = "HEADING_1" then hashes 1 ++ " "
  else if style = "HEADING_2" then hashes 2 ++ " "
  else if style = "HEADING_3" then hashes 3 ++ " "
  else if style = "HEADING_4" then hashes 4 ++ " "
  else if style = "HEADING_5" then hashes 5 ++ " "
  else if style = "HEADING_6" then hashes 6 ++ " "
  else ""

/-- Spec-side emission for one paragraph: concatenate the text runs, strip
trailing newlines, then emit prefix-plus-line when non-empty, an empty line
when empty without prefix, and nothing when empty with a prefix. -/
def specEmitParagraph (para : Paragraph) : Option String :=
  let line := rstripNewlines (paragraphLine para)
  let pfx := specHeadingPfx (paragraphNamedStyle para)
  if line ≠ "" then some (pfx ++ line)
  else if pfx = "" then some "" else none

/-- Spec-side rendering of a whole body: skip non-paragraph elements, emit
per paragraph, join with single newlines in document order. -/
def specExtract (body : Body) : String :=
  String.intercalate "\n"
    (body.content.filterMap (fun el => el.paragraph.bind specEmitParagraph))

/-! ## Concrete snapshots used as witnesses and counterexamples -/

/-- Leaf tab constructor for examples. -/
def mkTab (id title : String) (children : List Tab) : Tab :=
  Tab.mk (some { tabId := some id, title := some title }) none children

/-- Example tree from the spec: A with children B and C, C with child D. -/
def tabTreeA : List Tab := [mkTab "A" "a" [mkTab "B" "b" [], mkTab "C" "c" [mkTab "D" "d" []]]]

/-- First tab of the id-versus-title example: identifier a, title T. -/
def tabX : Tab := mkTab "a" "T" []

/-- Second tab of the id-versus-title example: identifier b, title U. -/
def tabY : Tab := mkTab "b" "U" []

/-- A structural element holding one paragraph with a given named style and
a single text run. -/
def paraElem (style txt : String) : StructuralElement :=
  { paragraph :=
      some { paragraphStyle := some { namedStyleType := some style }
             elements := [{ textRun := some { content := some txt } }] } }

/-- The matching predicate a single pre-order scan of `_find_tab` applies to
each flattened entry: an exact, case-sensitive identifier hit (when a
non-empty identifier was supplied) or a case-insensitive title hit (when a
non-empty title was supplied). -/
def matchesEntry (tab_id tab_title : String) (e : FlatEntry) : Bool :=
  (decide (tab_id ≠ "") && decide (e.tabId = tab_id))
    || (decide (tab_title ≠ "") && decide (strLower e.title = strLower tab_title))

/-- What the scope rewrite guarantees for one `(op_name, op_body)` entry of
a request: the name is kept, and when the body is a dict, each of the three
location-bearing fields that is a dict without a tab scope gains
`tabId := rid` (appended in dict order), and a `containsText` criterion
without a `tabsCriteria` gains one scoping to exactly `rid`. -/
def opInjected (rid : String) (op op' : String × JVal) : Prop :=
  op'.1 = op.1 ∧
  ∀ fs, op.2 = JVal.obj fs →
    ∃ fs', op'.2 = JVal.obj fs' ∧
      (∀ key ∈ scopeKeys, ∀ vfs, getKey key fs = some (JVal.obj vfs) →
        hasKey "tabId" vfs = false →
        getKey key fs' = some (JVal.obj (vfs ++ [("tabId", JVal.str rid)]))) ∧
      (hasKey "containsText" fs = true → hasKey "tabsCriteria" fs = false →
        getKey "tabsCriteria" fs' =
          some (JVal.obj [("tabIds", JVal.arr [JVal.str rid])]))

/-- Whether one scopable field value already carries an explicit tab scope:
absent counts as scoped (nothing to rewrite), a dict must contain `tabId`,
anything else is not scoped. -/
def valScoped : Option JVal → Bool
  | none => true
  | some (JVal.obj vfs) => hasKey "tabId" vfs
  | some _ => false

/-- An `(op_name, op_body)` entry all of whose scopable fields already carry
an explicit tab scope, and whose `containsText` criterion (if any) already
has a `tabsCriteria`. -/
def opFullyScoped (op : String × JVal) : Bool :=
  match op.2 with
  | JVal.obj fs =>
      scopeKeys.all (fun key => valScoped (getKey key fs))
        && (!hasKey "containsText" fs || hasKey "tabsCriteria" fs)
  | _ => true

/-- Example batch for the rewriter: an insert with an unscoped location and
a replace-all with an unscoped text-match criterion. -/
def exBatch : List JDict :=
  [[("insertText", JVal.obj [("location", JVal.obj [("index", JVal.num 1)]),
                             ("text", JVal.str "x")])],
   [("replaceAllText", JVal.obj [("containsText", JVal.obj [("text", JVal.str "f")])])]]

/-- The example batch after scoping to tab123. -/
def exBatchScoped : List JDict :=
  [[("insertText", JVal.obj [("location", JVal.obj [("index", JVal.num 1),
                                                    ("tabId", JVal.str "tab123")]),
                             ("text", JVal.str "x")])],
   [("replaceAllText", JVal.obj
      [("containsText", JVal.obj [("text", JVal.str "f")]),
       ("tabsCriteria", JVal.obj [("tabIds", JVal.arr [JVal.str "tab123"])])])]]

/-- Example batch whose requests all carry explicit scopes already. -/
def exScopedBatch : List JDict :=
  [[("insertText", JVal.obj [("location", JVal.obj [("index", JVal.num 1),
                                                    ("tabId", JVal.str "other")]),
                             ("text", JVal.str "x")]),
    ("replaceAllText", JVal.obj
      [("containsText", JVal.obj [("text", JVal.str "f")]),
       ("tabsCriteria", JVal.obj [("tabIds", JVal.arr [JVal.str "other"])])])]]

/-! ## Lemmas about the flattener -/

/-- Unfolding the flattener at a cons: the entry of the head tab comes first,
then the whole child subtree one level deeper, then the remaining siblings
at the same depth. -/
theorem flatten_tabs_cons (t : Tab) (ts : List Tab) (d : Nat) :
    _flatten_tabs (t :: ts) d =
      flatEntryOf t d :: (_flatten_tabs t.childTabs (d + 1) ++ _flatten_tabs ts d) := by
  cases t
  simp [_flatten_tabs, Tab.childTabs]

/-- The per-tab runs of the flattener concatenate: flattening a cons is the
flattening of the head alone followed by the flattening of the rest. -/
theorem flatten_tabs_singleton_append (t : Tab) (ts : List Tab) (d : Nat) :
    _flatten_tabs (t :: ts) d = _flatten_tabs [t] d ++ _flatten_tabs ts d := by
  cases t
  simp [_flatten_tabs]

/-- Claim C7: flattening is pre-order and depth-correct.  An empty tab list
yields the empty sequence; a cons yields the parent's entry, then the whole
child subtree at depth `d + 1`, then the remaining siblings at depth `d`;
per-tab runs concatenate; the default starting depth is 0; and the concrete
tree A(children B, C(child D)) flattens to A at depth 0, B at depth 1, C at
depth 1, D at depth 2, in that exact order. -/
theorem c7_flatten_preorder :
    (∀ d : Nat, _flatten_tabs [] d = [])
    ∧ (∀ (t : Tab) (ts : List Tab) (d : Nat),
        _flatten_tabs (t :: ts) d =
          flatEntryOf t d :: (_flatten_tabs t.childTabs (d + 1) ++ _flatten_tabs ts d))
    ∧ (∀ (t : Tab) (ts : List Tab) (d : Nat),
        _flatten_tabs (t :: ts) d = _flatten_tabs [t] d ++ _flatten_tabs ts d)
    ∧ (∀ ts : List Tab, _flatten_tabs ts = _flatten_tabs ts 0)
    ∧ (_flatten_tabs tabTreeA).map (fun e => (e.tabId, e.depth)) =
        [("A", 0), ("B", 1), ("C", 1), ("D", 2)] :=
  ⟨fun d => by simp [_flatten_tabs], flatten_tabs_cons, flatten_tabs_singleton_append,
   fun _ => rfl,
   by simp [tabTreeA, mkTab, _flatten_tabs, flatEntryOf, Tab.childTabs, Tab.tabProperties]⟩

/-! ## Lemmas about the lookup loop -/

/-- The lookup loop returns the first entry, in list order, that matches
either criterion. -/
theorem findTabLoop_eq_find? (tab_id tab_title : String) (l : List FlatEntry) :
    findTabLoop tab_id tab_title l =
      (l.find? (matchesEntry tab_id tab_title)).map (fun e => e.tab) := by
  induction l with
  | nil => rfl
  | cons e rest ih =>
    by_cases h1 : tab_id ≠ "" ∧ e.tabId = tab_id
    · rw [findTabLoop, if_pos h1, List.find?_cons_of_pos]
      · rfl
      · simp [matchesEntry, h1.1, h1.2]
    · by_cases h2 : tab_title ≠ "" ∧ strLower e.title = strLower tab_title
      · rw [findTabLoop, if_neg h1, if_pos h2, List.find?_cons_of_pos]
        · rfl
        · simp [matchesEntry, h2.1, h2.2]
      · rw [findTabLoop, if_neg h1, if_neg h2, ih, List.find?_cons_of_neg]
        simp only [matchesEntry, Bool.or_eq_true, Bool.and_eq_true, decide_eq_true_eq, not_or,
          not_and]
        exact ⟨fun ha hb => h1 ⟨ha, hb⟩, fun ha hb => h2 ⟨ha, hb⟩⟩

/-- Claim C1 (amended): the resolver performs a single pre-order scan and
returns the first flattened entry matching either criterion — an exact,
case-sensitive identifier hit or a case-insensitive title hit.  When only
an identifier is supplied this is the first exact identifier match; when
only a title is supplied, the first case-insensitive title match
(first-wins, so later duplicate titles are unreachable).  When both are
supplied, an earlier title match takes precedence over a later identifier
match. -/
theorem c1_find_tab_first_match (tabs : List Tab) (tab_id tab_title : String) :
    _find_tab tabs tab_id tab_title =
      ((_flatten_tabs tabs).find? (matchesEntry tab_id tab_title)).map (fun e => e.tab)
    ∧ _find_tab tabs tab_id "" =
      ((_flatten_tabs tabs).find?
        (fun e => decide (tab_id ≠ "") && decide (e.tabId = tab_id))).map (fun e => e.tab)
    ∧ _find_tab tabs "" tab_title =
      ((_flatten_tabs tabs).find?
        (fun e => decide (tab_title ≠ "") &&
          decide (strLower e.title = strLower tab_title))).map (fun e => e.tab) := by
  refine ⟨findTabLoop_eq_find? tab_id tab_title _, ?_, ?_⟩
  · rw [_find_tab, findTabLoop_eq_find?]
    have hp : matchesEntry tab_id "" =
        fun e => decide (tab_id ≠ "") && decide (e.tabId = tab_id) := by
      funext e
      simp [matchesEntry]
    rw [hp]
  · rw [_find_tab, findTabLoop_eq_find?]
    have hp : matchesEntry "" tab_title =
        fun e => decide (tab_title ≠ "") && decide (strLower e.title = strLower tab_title) := by
      funext e
      simp [matchesEntry]
    rw [hp]

/-- Counterexample to claim C1 as stated: with identifier b and title t
both supplied over tabs with ids a then b and titles T then U, the resolver
returns the tab with identifier a (an earlier case-insensitive title
match), not the first entry whose identifier equals b. -/
theorem c1_counterexample :
    (_find_tab [tabX, tabY] "b" "t").map
        (fun t => (t.tabProperties.getD {}).tabId.getD "") = some "a"
    ∧ (_flatten_tabs [tabX, tabY]).map (fun e => e.tabId) = ["a", "b"]
    ∧ ("a" : String) ≠ "b" := by
  refine ⟨?_, ?_, by decide⟩
  · have ht : strLower "T" = strLower "t" := by decide
    simp [_find_tab, _flatten_tabs, tabX, tabY, mkTab, findTabLoop, flatEntryOf,
      Tab.tabProperties, Tab.childTabs, ht]
  · simp [_flatten_tabs, tabX, tabY, mkTab, flatEntryOf, Tab.tabProperties, Tab.childTabs]

/-! ## The tab-not-found error -/

/-- Claim C2 (amended): for every document snapshot that has at least one
tab, when the supplied identifier or title is non-empty and no flattened
entry matches, resolution fails with the tab-not-found error carrying both
requested values, and operations that requested the tab (reading,
appending) return that error instead of proceeding. -/
theorem c2_tab_not_found (doc : Document) (tab_id tab_title : String)
    (htabs : doc.tabs ≠ [])
    (hne : tab_id ≠ "" ∨ tab_title ≠ "")
    (hnom : _find_tab doc.tabs tab_id tab_title = none) :
    _resolve_tab doc tab_id tab_title = .error (tabNotFoundMsg tab_id tab_title)
    ∧ read_document doc tab_id tab_title = .error (tabNotFoundMsg tab_id tab_title)
    ∧ ∀ text, append_text doc text tab_id tab_title =
        .error (tabNotFoundMsg tab_id tab_title) := by
  have hres : _resolve_tab doc tab_id tab_title = .error (tabNotFoundMsg tab_id tab_title) := by
    obtain ⟨t, ts, htd⟩ : ∃ t ts, doc.tabs = t :: ts := by
      cases h : doc.tabs with
      | nil => exact absurd h htabs
      | cons a l => exact ⟨a, l, rfl⟩
    rw [htd] at hnom
    unfold _resolve_tab
    simp only [htd, List.isEmpty_cons, Bool.false_eq_true, if_false, if_pos hne, hnom]
  refine ⟨hres, ?_, ?_⟩
  · unfold read_document
    rw [if_pos hne, hres]
  · intro text
    unfold append_text
    rw [hres]

/-- Witness for `c2_tab_not_found` at a one-tab document and the unmatched
identifier zzz. -/
theorem c2_tab_not_found_witness :
    _resolve_tab { title := some "T", tabs := [tabX] } "zzz" "" =
      .error (tabNotFoundMsg "zzz" "")
    ∧ read_document { title := some "T", tabs := [tabX] } "zzz" "" =
      .error (tabNotFoundMsg "zzz" "") := by
  have h := c2_tab_not_found { title := some "T", tabs := [tabX] } "zzz" ""
    (by simp)
    (Or.inl (by decide))
    (by simp [_find_tab, _flatten_tabs, tabX, mkTab, findTabLoop, flatEntryOf,
      Tab.tabProperties, Tab.childTabs])
  exact ⟨h.1, h.2.1⟩

/-- Counterexample to claim C2 as stated: a tab-less document snapshot with
the non-empty requested identifier zzz (which no flattened entry matches,
the flattening being empty) resolves successfully to the legacy flat body
instead of failing. -/
theorem c2_counterexample :
    _resolve_tab { title := some "T", body := some {} } "zzz" "" = .ok ({}, "")
    ∧ _flatten_tabs ([] : List Tab) = [] :=
  ⟨rfl, by simp [_flatten_tabs]⟩

/-! ## The append offset -/

/-- On a tab-less document wrapping a bare body, `append_text` resolves to
that body and applies the offset computation directly. -/
theorem append_text_flat (body : Body) (t : String) :
    append_text { body := some body } t =
      .ok (if _body_end_index body > 1 then "\n" ++ t else t, _body_end_index body, "") :=
  rfl

/-- Claim C5: the append-safe offset is 1 for a body with no structural
elements (and then no leading newline is prepended); otherwise it is the
recorded end offset of the last structural element minus one; and when the
append offset exceeds 1 exactly one leading newline is prepended to the
inserted text. -/
theorem c5_append_offset (body : Body) (text : String) :
    (body.content = [] → _body_end_index body = 1
      ∧ append_text { body := some body } text = .ok (text, 1, ""))
    ∧ (∀ last e, body.content.getLast? = some last → last.endIndex = some e →
        _body_end_index body = e - 1)
    ∧ (text ≠ "" → _body_end_index body > 1 →
        append_text { body := some body } text =
          .ok ("\n" ++ text, _body_end_index body, "")) := by
  refine ⟨?_, ?_, ?_⟩
  · intro h
    have h1 : _body_end_index body = 1 := by simp [_body_end_index, h]
    refine ⟨h1, ?_⟩
    rw [append_text_flat, h1]
    norm_num
  · intro last e h1 h2
    simp [_body_end_index, h1, h2]
  · intro _ hgt
    rw [append_text_flat, if_pos hgt]

/-- Witness for `c5_append_offset`: a last element ending at 50 gives
offset 49 and inserted text newline-hi; the empty body gives offset 1 and
no leading newline. -/
theorem c5_append_offset_witness :
    _body_end_index { content := [{ endIndex := some 50 }] } = 49
    ∧ append_text { body := some { content := [{ endIndex := some 50 }] } } "hi" =
        .ok ("\nhi", 49, "")
    ∧ _body_end_index {} = 1
    ∧ append_text { body := some {} } "hi" = .ok ("hi", 1, "") := by
  have h := c5_append_offset { content := [{ endIndex := some 50 }] } "hi"
  have h0 := c5_append_offset {} "hi"
  have hoff : _body_end_index { content := [{ endIndex := some 50 }] } = 49 := by decide
  refine ⟨hoff, ?_, (h0.1 rfl).1, (h0.1 rfl).2⟩
  have happ := h.2.2 (by decide) (by rw [hoff]; norm_num)
  rw [happ, hoff]
  have hs : "\n" ++ "hi" = "\nhi" := by decide
  rw [hs]

/-- Claim C10: a non-empty body whose last structural element records no
end index gets append offset 0 (the default end index 1, minus one), so the
floor of 1 applies only to bodies with no structural elements; at offset 0
no leading newline is prepended and the insertion is issued at index 0. -/
theorem c10_missing_end_index (body : Body) (last : StructuralElement) (text : String)
    (h1 : body.content.getLast? = some last) (h2 : last.endIndex = none) :
    _body_end_index body = 0
    ∧ append_text { body := some body } text = .ok (text, 0, "") := by
  have h0 : _body_end_index body = 0 := by simp [_body_end_index, h1, h2]
  refine ⟨h0, ?_⟩
  rw [append_text_flat, h0]
  norm_num

/-- Witness for `c10_missing_end_index`: one element with no recorded end
index. -/
theorem c10_missing_end_index_witness :
    _body_end_index { content := [{}] } = 0
    ∧ append_text { body := some { content := [{}] } } "hi" = .ok ("hi", 0, "") :=
  c10_missing_end_index { content := [{}] } {} "hi" rfl rfl

/-! ## The content extractor -/

/-- The table lookup of the source agrees with the spec-side prefix
mapping on every style string. -/
theorem headingPfx_eq (s : String) :
    (heading_map.lookup s).getD "" = specHeadingPfx s := by
  by_cases h1 : s = "HEADING_1"
  · subst h1; decide
  by_cases h2 : s = "HEADING_2"
  · subst h2; decide
  by_cases h3 : s = "HEADING_3"
  · subst h3; decide
  by_cases h4 : s = "HEADING_4"
  · subst h4; decide
  by_cases h5 : s = "HEADING_5"
  · subst h5; decide
  by_cases h6 : s = "HEADING_6"
  · subst h6; decide
  by_cases h7 : s = "TITLE"
  · subst h7; decide
  by_cases h8 : s = "SUBTITLE"
  · subst h8; decide
  have b1 : (s == "HEADING_1") = false := beq_eq_false_iff_ne.mpr h1
  have b2 : (s == "HEADING_2") = false := beq_eq_false_iff_ne.mpr h2
  have b3 : (s == "HEADING_3") = false := beq_eq_false_iff_ne.mpr h3
  have b4 : (s == "HEADING_4") = false := beq_eq_false_iff_ne.mpr h4
  have b5 : (s == "HEADING_5") = false := beq_eq_false_iff_ne.mpr h5
  have b6 : (s == "HEADING_6") = false := beq_eq_false_iff_ne.mpr h6
  have b7 : (s == "TITLE") = false := beq_eq_false_iff_ne.mpr h7
  have b8 : (s == "SUBTITLE") = false := beq_eq_false_iff_ne.mpr h8
  simp [heading_map, List.lookup, specHeadingPfx, b1, b2, b3, b4, b5, b6, b7, b8,
    h1, h2, h3, h4, h5, h6, h7, h8]

/-- The extraction loop is the per-paragraph emission of the spec, applied
element-wise: non-paragraph elements are skipped, and each paragraph
contributes its emitted line, when any. -/
theorem extractParts_eq_filterMap (l : List StructuralElement) :
    extractParts l = l.filterMap (fun el => el.paragraph.bind specEmitParagraph) := by
  induction l with
  | nil => rfl
  | cons el rest ih =>
    cases hp : el.paragraph with
    | none => simp [extractParts, hp, ih]
    | some para =>
      by_cases hl : rstripNewlines (paragraphLine para) ≠ ""
      · simp [extractParts, hp, specEmitParagraph, hl, headingPfx_eq, ih]
      · push_neg at hl
        by_cases hpfx : specHeadingPfx (paragraphNamedStyle para) = ""
        · simp [extractParts, hp, specEmitParagraph, hl, hpfx, headingPfx_eq, ih,
            List.filterMap_cons]
        · simp [extractParts, hp, specEmitParagraph, hl, hpfx, headingPfx_eq, ih,
            List.filterMap_cons]

/-- Claim C6: the extractor renders exactly as specified — paragraphs only,
text runs concatenated in order, trailing newlines stripped, heading
prefixes per the style table (emitting nothing for an empty heading
paragraph, an empty line for an empty unstyled paragraph), joined with
single newlines in document order.  The concrete conjuncts check a level-2
heading, an empty heading paragraph, a preserved blank line between
paragraphs, and a skipped non-paragraph element. -/
theorem c6_extractor (body : Body) :
    _extract_text_from_body body = specExtract body
    ∧ _extract_text_from_body { content := [paraElem "HEADING_2" "Intro\n"] } = "## Intro"
    ∧ _extract_text_from_body { content := [paraElem "HEADING_2" "\n"] } = ""
    ∧ _extract_text_from_body { content :=
        [paraElem "NORMAL_TEXT" "A\n", paraElem "NORMAL_TEXT" "\n",
         paraElem "NORMAL_TEXT" "B\n"] } = "A\n\nB"
    ∧ _extract_text_from_body { content :=
        [{ endIndex := some 7 }, paraElem "NORMAL_TEXT" "A\n"] } = "A" := by
  refine ⟨?_, by decide, by decide, by decide, by decide⟩
  unfold _extract_text_from_body specExtract
  rw [extractParts_eq_filterMap]

/-! ## Reading a whole multi-tab document -/

/-- The imperative section-appending loop is the map over flat entries. -/
theorem foldl_sections_eq_map (l : List FlatEntry) (init : List String) :
    l.foldl (fun acc e => acc ++ [tabSection e]) init = init ++ l.map tabSection := by
  induction l generalizing init with
  | nil => simp
  | cons e rest ih => simp [List.foldl_cons, ih]

/-- Claim C8: reading a document that has tabs, with no tab requested,
renders every tab body independently with the extractor and assembles the
renderings under the document title, each under a header of markdown level
depth plus two, separated by a horizontal-rule delimiter, in the
pre-order of the flattener. -/
theorem c8_read_all_tabs (doc : Document) (htabs : doc.tabs ≠ []) :
    read_document doc = .ok (String.intercalate "\n\n---\n\n"
      (("# " ++ doc.title.getD "Untitled" ++ "\n") ::
        (_flatten_tabs doc.tabs).map (fun e =>
          hashes (e.depth + 2) ++ " [" ++ e.title ++ "]\n\n" ++
            _extract_text_from_body (tabBody e.tab)))) := by
  have hempty : ¬(doc.tabs.isEmpty = true) := by
    simpa [List.isEmpty_iff] using htabs
  unfold read_document
  rw [if_neg (by simp), if_neg hempty, foldl_sections_eq_map]
  rfl

/-- Witness for `c8_read_all_tabs` at the concrete tree A(B, C(D)). -/
theorem c8_read_all_tabs_witness :
    read_document { title := some "Doc", tabs := tabTreeA } = .ok
      (String.intercalate "\n\n---\n\n"
        (("# " ++ "Doc" ++ "\n") ::
          (_flatten_tabs tabTreeA).map (fun e =>
            hashes (e.depth + 2) ++ " [" ++ e.title ++ "]\n\n" ++
              _extract_text_from_body (tabBody e.tab)))) :=
  c8_read_all_tabs { title := some "Doc", tabs := tabTreeA } (by simp [tabTreeA])

/-! ## Direct use of a caller-supplied tab id -/

/-- Claim C9: for the insert, replace and batch-update tools, a non-empty
caller-supplied tab identifier is used as the scope directly, with no
document fetch, no resolver consultation and hence no possible
tab-not-found error; a fetch happens only when the identifier is empty and
a title is supplied. -/
theorem c9_direct_tab_id (doc : Document) (tab_id tab_title : String) (h : tab_id ≠ "") :
    insertTextScope doc tab_id tab_title = .ok (false, tab_id)
    ∧ replaceTextScope doc tab_id tab_title = .ok (false, tab_id)
    ∧ batchUpdateScope doc tab_id tab_title = .ok (false, tab_id)
    ∧ (∀ id t rid, insertTextScope doc id t = .ok (true, rid) → id = "" ∧ t ≠ "")
    ∧ (∀ id t rid, replaceTextScope doc id t = .ok (true, rid) → id = "" ∧ t ≠ "")
    ∧ (∀ id t rid, batchUpdateScope doc id t = .ok (true, rid) → id = "" ∧ t ≠ "") := by
  refine ⟨?_, ?_, ?_, ?_, ?_, ?_⟩
  · rw [insertTextScope, if_pos h]
  · rw [replaceTextScope, if_neg (fun hc => h hc.1)]
  · rw [batchUpdateScope, if_neg (fun hc => h hc.1)]
  · intro id t rid hres
    unfold insertTextScope at hres
    split at hres
    · simp at hres
    split at hres
    · next hid ht =>
      refine ⟨not_not.mp hid, ht⟩
    · simp at hres
  · intro id t rid hres
    unfold replaceTextScope at hres
    by_cases hc : id = "" ∧ t ≠ ""
    · exact hc
    · rw [if_neg hc] at hres
      simp at hres
  · intro id t rid hres
    unfold batchUpdateScope at hres
    by_cases hc : id = "" ∧ t ≠ ""
    · exact hc
    · rw [if_neg hc] at hres
      simp at hres

/-- Witness for `c9_direct_tab_id` at the identifier tab123. -/
theorem c9_direct_tab_id_witness :
    insertTextScope {} "tab123" "My Tab" = .ok (false, "tab123")
    ∧ replaceTextScope {} "tab123" "My Tab" = .ok (false, "tab123")
    ∧ batchUpdateScope {} "tab123" "My Tab" = .ok (false, "tab123") :=
  ⟨(c9_direct_tab_id {} "tab123" "My Tab" (by decide)).1,
   (c9_direct_tab_id {} "tab123" "My Tab" (by decide)).2.1,
   (c9_direct_tab_id {} "tab123" "My Tab" (by decide)).2.2.1⟩

/-! ## Association-list lemmas for the scope rewriter -/

theorem getKey_cons (k : String) (p : String × JVal) (fs : JDict) :
    getKey k (p :: fs) = if p.1 == k then some p.2 else getKey k fs := by
  simp only [getKey, List.find?]
  cases hb : (p.1 == k) <;> simp [hb]

theorem hasKey_cons (k : String) (p : String × JVal) (fs : JDict) :
    hasKey k (p :: fs) = ((p.1 == k) || hasKey k fs) := by
  simp [hasKey]

theorem getKey_some_hasKey {k : String} {fs : JDict} {v : JVal}
    (h : getKey k fs = some v) : hasKey k fs = true := by
  induction fs with
  | nil => simp [getKey] at h
  | cons p fs ih =>
    rw [getKey_cons] at h
    rw [hasKey_cons]
    by_cases hb : (p.1 == k) = true
    · simp [hb]
    · rw [if_neg hb] at h
      simp [ih h]

theorem getKey_eq_none {k : String} {fs : JDict}
    (h : hasKey k fs = false) : getKey k fs = none := by
  cases hg : getKey k fs with
  | none => rfl
  | some v => rw [getKey_some_hasKey hg] at h; cases h

theorem getKey_map_replace_self {k : String} {v : JVal} :
    ∀ fs : JDict, hasKey k fs = true →
      getKey k (fs.map (fun p => if p.1 == k then (k, v) else p)) = some v := by
  intro fs
  induction fs with
  | nil => intro h; simp [hasKey] at h
  | cons p fs ih =>
    intro h
    by_cases hb : (p.1 == k) = true
    · rw [List.map_cons, if_pos hb, getKey_cons, if_pos (by simp)]
    · rw [hasKey_cons, Bool.or_eq_true] at h
      rcases h with h | h
      · exact absurd h hb
      · rw [List.map_cons, if_neg hb, getKey_cons, if_neg hb]
        exact ih h

theorem getKey_map_replace_ne {k k' : String} {v : JVal} (hne : k' ≠ k) :
    ∀ fs : JDict,
      getKey k' (fs.map (fun p => if p.1 == k then (k, v) else p)) = getKey k' fs := by
  have hkk' : (k == k') = false := beq_eq_false_iff_ne.mpr (fun hc => hne hc.symm)
  intro fs
  induction fs with
  | nil => rfl
  | cons p fs ih =>
    by_cases hb : (p.1 == k) = true
    · have hp1 : p.1 = k := by simpa using hb
      rw [List.map_cons, if_pos hb, getKey_cons, getKey_cons, hp1]
      rw [if_neg (by simp [hkk']), if_neg (by simp [hkk'])]
      exact ih
    · rw [List.map_cons, if_neg hb, getKey_cons, getKey_cons]
      by_cases hb' : (p.1 == k') = true
      · rw [if_pos hb', if_pos hb']
      · rw [if_neg hb', if_neg hb']
        exact ih

theorem hasKey_map_replace {k k' : String} {v : JVal} :
    ∀ fs : JDict,
      hasKey k' (fs.map (fun p => if p.1 == k then (k, v) else p)) = hasKey k' fs := by
  intro fs
  induction fs with
  | nil => rfl
  | cons p fs ih =>
    by_cases hb : (p.1 == k) = true
    · have hp1 : p.1 = k := by simpa using hb
      rw [List.map_cons, if_pos hb, hasKey_cons, hasKey_cons, hp1, ih]
    · rw [List.map_cons, if_neg hb, hasKey_cons, hasKey_cons, ih]

theorem getKey_setKey_self {k : String} {v : JVal} {fs : JDict}
    (h : hasKey k fs = true) : getKey k (setKey k v fs) = some v := by
  rw [setKey, if_pos h]
  exact getKey_map_replace_self fs h

theorem getKey_setKey_ne {k k' : String} {v : JVal} {fs : JDict}
    (hne : k' ≠ k) : getKey k' (setKey k v fs) = getKey k' fs := by
  rw [setKey]
  by_cases h : hasKey k fs = true
  · rw [if_pos h]
    exact getKey_map_replace_ne hne fs
  · rw [if_neg h]
    induction fs with
    | nil =>
      rw [List.nil_append, getKey_cons,
        if_neg (by simp [beq_eq_false_iff_ne.mpr (fun hc => hne hc.symm)])]
    | cons p fs ih =>
      rw [List.cons_append, getKey_cons, getKey_cons]
      by_cases hb' : (p.1 == k') = true
      · rw [if_pos hb', if_pos hb']
      · rw [if_neg hb', if_neg hb']
        exact ih (fun hk => h (by rw [hasKey_cons, Bool.or_eq_true]; exact Or.inr hk))

theorem hasKey_setKey {k k' : String} {v : JVal} {fs : JDict}
    (h : hasKey k fs = true) : hasKey k' (setKey k v fs) = hasKey k' fs := by
  rw [setKey, if_pos h]
  exact hasKey_map_replace fs

theorem getKey_append_some {k : String} {fs l : JDict} {v : JVal}
    (h : getKey k fs = some v) : getKey k (fs ++ l) = some v := by
  induction fs with
  | nil => simp [getKey] at h
  | cons p fs ih =>
    rw [getKey_cons] at h
    rw [List.cons_append, getKey_cons]
    by_cases hb : (p.1 == k) = true
    · rw [if_pos hb] at h
      rw [if_pos hb]
      exact h
    · rw [if_neg hb] at h
      rw [if_neg hb]
      exact ih h

theorem getKey_append_last {k : String} {fs : JDict} {v : JVal}
    (h : hasKey k fs = false) : getKey k (fs ++ [(k, v)]) = some v := by
  induction fs with
  | nil =>
    rw [List.nil_append, getKey_cons, if_pos (by simp)]
  | cons p fs ih =>
    rw [hasKey_cons, Bool.or_eq_false_iff] at h
    rw [List.cons_append, getKey_cons, if_neg (by simp [h.1])]
    exact ih h.2

theorem hasKey_append_single {k k' : String} {fs : JDict} {v : JVal} :
    hasKey k' (fs ++ [(k, v)]) = (hasKey k' fs || (k == k')) := by
  induction fs with
  | nil => simp [hasKey]
  | cons p fs ih =>
    rw [List.cons_append, hasKey_cons, hasKey_cons, ih, Bool.or_assoc]

/-! ## The effect of one key injection -/

theorem injectKey_hasKey {rid key : String} {fs fs' : JDict}
    (h : injectKey rid key fs = some fs') (k' : String) :
    hasKey k' fs' = hasKey k' fs := by
  cases hg : getKey key fs with
  | none =>
    unfold injectKey at h
    simp only [hg] at h
    cases h
    rfl
  | some v =>
    cases v with
    | obj vfs =>
      unfold injectKey at h
      simp only [hg] at h
      by_cases ht : hasKey "tabId" vfs = true
      · rw [if_pos ht] at h; cases h; rfl
      · rw [if_neg ht] at h
        cases h
        exact hasKey_setKey (getKey_some_hasKey hg)
    | str a => unfold injectKey at h; simp only [hg] at h; cases h
    | num a => unfold injectKey at h; simp only [hg] at h; cases h
    | bool a => unfold injectKey at h; simp only [hg] at h; cases h
    | arr a => unfold injectKey at h; simp only [hg] at h; cases h

theorem injectKey_getKey_ne {rid key k' : String} {fs fs' : JDict}
    (h : injectKey rid key fs = some fs') (hne : k' ≠ key) :
    getKey k' fs' = getKey k' fs := by
  cases hg : getKey key fs with
  | none =>
    unfold injectKey at h
    simp only [hg] at h
    cases h
    rfl
  | some v =>
    cases v with
    | obj vfs =>
      unfold injectKey at h
      simp only [hg] at h
      by_cases ht : hasKey "tabId" vfs = true
      · rw [if_pos ht] at h; cases h; rfl
      · rw [if_neg ht] at h
        cases h
        exact getKey_setKey_ne hne
    | str a => unfold injectKey at h; simp only [hg] at h; cases h
    | num a => unfold injectKey at h; simp only [hg] at h; cases h
    | bool a => unfold injectKey at h; simp only [hg] at h; cases h
    | arr a => unfold injectKey at h; simp only [hg] at h; cases h

theorem injectKey_inject (rid : String) {key : String} {fs : JDict} {vfs : List (String × JVal)}
    (hg : getKey key fs = some (JVal.obj vfs)) (ht : hasKey "tabId" vfs = false) :
    injectKey rid key fs =
      some (setKey key (JVal.obj (vfs ++ [("tabId", JVal.str rid)])) fs) := by
  unfold injectKey
  simp only [hg]
  rw [if_neg (by simp [ht])]

theorem injectKey_skip_scoped (rid : String) {key : String} {fs : JDict} {vfs : List (String × JVal)}
    (hg : getKey key fs = some (JVal.obj vfs)) (ht : hasKey "tabId" vfs = true) :
    injectKey rid key fs = some fs := by
  unfold injectKey
  simp only [hg]
  rw [if_pos ht]

theorem injectKey_skip_none (rid : String) {key : String} {fs : JDict}
    (hg : getKey key fs = none) : injectKey rid key fs = some fs := by
  unfold injectKey
  simp only [hg]

/-! ## The effect of one operation-body rewrite -/

theorem injectBody_destruct {rid : String} {fs fs' : JDict}
    (h : injectBody rid fs = some fs') :
    ∃ fs1 fs2 fs3, injectKey rid "location" fs = some fs1
      ∧ injectKey rid "range" fs1 = some fs2
      ∧ injectKey rid "insertionLocation" fs2 = some fs3
      ∧ fs' = (if hasKey "containsText" fs3 && !hasKey "tabsCriteria" fs3
               then fs3 ++ [("tabsCriteria", JVal.obj [("tabIds", JVal.arr [JVal.str rid])])]
               else fs3) := by
  unfold injectBody at h
  cases h1 : injectKey rid "location" fs with
  | none => simp only [h1] at h; cases h
  | some fs1 =>
    simp only [h1] at h
    cases h2 : injectKey rid "range" fs1 with
    | none => simp only [h2] at h; cases h
    | some fs2 =>
      simp only [h2] at h
      cases h3 : injectKey rid "insertionLocation" fs2 with
      | none => simp only [h3] at h; cases h
      | some fs3 =>
        simp only [h3, Option.some.injEq] at h
        exact ⟨fs1, fs2, fs3, rfl, h2, h3, h.symm⟩

theorem injectBody_spec {rid : String} {fs fs' : JDict}
    (h : injectBody rid fs = some fs') :
    (∀ key ∈ scopeKeys, ∀ vfs, getKey key fs = some (JVal.obj vfs) →
       hasKey "tabId" vfs = false →
       getKey key fs' = some (JVal.obj (vfs ++ [("tabId", JVal.str rid)])))
    ∧ (hasKey "containsText" fs = true → hasKey "tabsCriteria" fs = false →
       getKey "tabsCriteria" fs' = some (JVal.obj [("tabIds", JVal.arr [JVal.str rid])]))
    ∧ (∀ key ∈ scopeKeys, ∀ vfs, getKey key fs = some (JVal.obj vfs) →
       hasKey "tabId" vfs = true → getKey key fs' = some (JVal.obj vfs)) := by
  obtain ⟨fs1, fs2, fs3, h1, h2, h3, hf⟩ := injectBody_destruct h
  have hk13 : ∀ k', hasKey k' fs3 = hasKey k' fs := by
    intro k'
    rw [injectKey_hasKey h3, injectKey_hasKey h2, injectKey_hasKey h1]
  have hpres : ∀ (key : String) (w : JVal), key ≠ "tabsCriteria" →
      getKey key fs3 = some w → getKey key fs' = some w := by
    intro key w _ hw
    rw [hf]
    by_cases hc : (hasKey "containsText" fs3 && !hasKey "tabsCriteria" fs3) = true
    · rw [if_pos hc]
      exact getKey_append_some hw
    · rw [if_neg hc]
      exact hw
  refine ⟨?_, ?_, ?_⟩
  · intro key hkey vfs hg ht
    simp only [scopeKeys, List.mem_cons, List.not_mem_nil, or_false] at hkey
    rcases hkey with hkey | hkey | hkey <;> subst hkey
    · have e1 := injectKey_inject rid hg ht
      have hfs1 := Option.some.inj (h1.symm.trans e1)
      have g1 : getKey "location" fs1 =
          some (JVal.obj (vfs ++ [("tabId", JVal.str rid)])) := by
        rw [hfs1]
        exact getKey_setKey_self (getKey_some_hasKey hg)
      have g3 : getKey "location" fs3 =
          some (JVal.obj (vfs ++ [("tabId", JVal.str rid)])) := by
        rw [injectKey_getKey_ne h3 (by decide), injectKey_getKey_ne h2 (by decide)]
        exact g1
      exact hpres _ _ (by decide) g3
    · have g0 : getKey "range" fs1 = some (JVal.obj vfs) := by
        rw [injectKey_getKey_ne h1 (by decide)]
        exact hg
      have e2 := injectKey_inject rid g0 ht
      have hfs2 := Option.some.inj (h2.symm.trans e2)
      have g2 : getKey "range" fs2 =
          some (JVal.obj (vfs ++ [("tabId", JVal.str rid)])) := by
        rw [hfs2]
        exact getKey_setKey_self (getKey_some_hasKey g0)
      have g3 : getKey "range" fs3 =
          some (JVal.obj (vfs ++ [("tabId", JVal.str rid)])) := by
        rw [injectKey_getKey_ne h3 (by decide)]
        exact g2
      exact hpres _ _ (by decide) g3
    · have g0 : getKey "insertionLocation" fs2 = some (JVal.obj vfs) := by
        rw [injectKey_getKey_ne h2 (by decide), injectKey_getKey_ne h1 (by decide)]
        exact hg
      have e3 := injectKey_inject rid g0 ht
      have hfs3 := Option.some.inj (h3.symm.trans e3)
      have g3 : getKey "insertionLocation" fs3 =
          some (JVal.obj (vfs ++ [("tabId", JVal.str rid)])) := by
        rw [hfs3]
        exact getKey_setKey_self (getKey_some_hasKey g0)
      exact hpres _ _ (by decide) g3
  · intro hct htc
    have h3ct : hasKey "containsText" fs3 = true := by rw [hk13]; exact hct
    have h3tc : hasKey "tabsCriteria" fs3 = false := by rw [hk13]; exact htc
    rw [hf, if_pos (by rw [h3ct, h3tc]; rfl)]
    exact getKey_append_last h3tc
  · intro key hkey vfs hg ht
    simp only [scopeKeys, List.mem_cons, List.not_mem_nil, or_false] at hkey
    rcases hkey with hkey | hkey | hkey <;> subst hkey
    · have e1 := injectKey_skip_scoped rid hg ht
      have hfs1 := Option.some.inj (h1.symm.trans e1)
      have g3 : getKey "location" fs3 = some (JVal.obj vfs) := by
        rw [injectKey_getKey_ne h3 (by decide), injectKey_getKey_ne h2 (by decide), hfs1]
        exact hg
      exact hpres _ _ (by decide) g3
    · have g0 : getKey "range" fs1 = some (JVal.obj vfs) := by
        rw [injectKey_getKey_ne h1 (by decide)]
        exact hg
      have e2 := injectKey_skip_scoped rid g0 ht
      have hfs2 := Option.some.inj (h2.symm.trans e2)
      have g3 : getKey "range" fs3 = some (JVal.obj vfs) := by
        rw [injectKey_getKey_ne h3 (by decide), hfs2]
        exact g0
      exact hpres _ _ (by decide) g3
    · have g0 : getKey "insertionLocation" fs2 = some (JVal.obj vfs) := by
        rw [injectKey_getKey_ne h2 (by decide), injectKey_getKey_ne h1 (by decide)]
        exact hg
      have e3 := injectKey_skip_scoped rid g0 ht
      have hfs3 := Option.some.inj (h3.symm.trans e3)
      have g3 : getKey "insertionLocation" fs3 = some (JVal.obj vfs) := by
        rw [hfs3]
        exact g0
      exact hpres _ _ (by decide) g3

/-! ## Lifting the rewrite guarantees through requests and batches -/

theorem injectOp_spec {rid : String} {op op' : String × JVal}
    (h : injectOp rid op = some op') : opInjected rid op op' := by
  obtain ⟨name, v⟩ := op
  cases v with
  | obj fs =>
    simp only [injectOp] at h
    cases hb : injectBody rid fs with
    | none => simp only [hb] at h; cases h
    | some fs' =>
      simp only [hb] at h
      cases h
      refine ⟨rfl, ?_⟩
      intro fs0 hfs0
      cases hfs0
      exact ⟨fs', rfl, (injectBody_spec hb).1, (injectBody_spec hb).2.1⟩
  | str a =>
    cases h
    exact ⟨rfl, fun fs0 hfs0 => by cases hfs0⟩
  | num a =>
    cases h
    exact ⟨rfl, fun fs0 hfs0 => by cases hfs0⟩
  | bool a =>
    cases h
    exact ⟨rfl, fun fs0 hfs0 => by cases hfs0⟩
  | arr a =>
    cases h
    exact ⟨rfl, fun fs0 hfs0 => by cases hfs0⟩

theorem injectReq_forall₂ {rid : String} {req req' : JDict}
    (h : injectReq rid req = some req') :
    List.Forall₂ (fun op op' => injectOp rid op = some op') req req' := by
  induction req generalizing req' with
  | nil =>
    unfold injectReq at h
    cases h
    exact List.Forall₂.nil
  | cons op rest ih =>
    unfold injectReq at h
    cases ho : injectOp rid op with
    | none => simp only [ho] at h; cases h
    | some op' =>
      simp only [ho] at h
      cases hr : injectReq rid rest with
      | none => simp only [hr] at h; cases h
      | some rest' =>
        simp only [hr, Option.some.injEq] at h
        cases h
        exact List.Forall₂.cons ho (ih hr)

theorem rewriteReqList_forall₂ {rid : String} {reqs reqs' : List JDict}
    (h : rewriteReqList rid reqs = some reqs') :
    List.Forall₂ (fun req req' => injectReq rid req = some req') reqs reqs' := by
  induction reqs generalizing reqs' with
  | nil =>
    unfold rewriteReqList at h
    cases h
    exact List.Forall₂.nil
  | cons req rest ih =>
    unfold rewriteReqList at h
    cases hq : injectReq rid req with
    | none => simp only [hq] at h; cases h
    | some req' =>
      simp only [hq] at h
      cases hr : rewriteReqList rid rest with
      | none => simp only [hr] at h; cases h
      | some rest' =>
        simp only [hr, Option.some.injEq] at h
        cases h
        exact List.Forall₂.cons hq (ih hr)

/-- Claim C3: with a non-empty resolved identifier, the rewrite gives every
request's location, range and insertionLocation fields that lack a tab
scope the resolved identifier as scope, gives every containsText criterion
without a tabsCriteria one scoping to exactly the resolved identifier, and
does so uniformly in the operation name (a generic walk over the request
entries, not a switch over operation kinds). -/
theorem c3_scope_injection {rid : String} {reqs reqs' : List JDict}
    (hrid : rid ≠ "") (h : rewriteRequests rid reqs = some reqs') :
    List.Forall₂ (fun req req' => List.Forall₂ (opInjected rid) req req') reqs reqs'
    ∧ ∀ (n₁ n₂ : String) (v : JVal),
        (injectOp rid (n₁, v)).map (fun q => q.2) =
          (injectOp rid (n₂, v)).map (fun q => q.2) := by
  constructor
  · rw [rewriteRequests, if_pos hrid] at h
    refine (rewriteReqList_forall₂ h).imp ?_
    intro req req' hreq
    exact (injectReq_forall₂ hreq).imp (fun _ _ ho => injectOp_spec ho)
  · intro n₁ n₂ v
    cases v with
    | obj fs =>
      simp only [injectOp]
      cases injectBody rid fs <;> rfl
    | str a => rfl
    | num a => rfl
    | bool a => rfl
    | arr a => rfl

/-- Witness for `c3_scope_injection`: scoping the example batch (an
unscoped insert location plus an unscoped replace-all criterion) to tab123
produces exactly the scoped batch. -/
theorem c3_scope_injection_witness :
    rewriteRequests "tab123" exBatch = some exBatchScoped
    ∧ List.Forall₂ (fun req req' => List.Forall₂ (opInjected "tab123") req req')
        exBatch exBatchScoped :=
  have hre : rewriteRequests "tab123" exBatch = some exBatchScoped := rfl
  ⟨hre, (c3_scope_injection (by decide) hre).1⟩

/-! ## Identity of the rewrite on fully scoped batches -/

theorem injectKey_id_of_scoped {rid key : String} {fs : JDict}
    (h : valScoped (getKey key fs) = true) : injectKey rid key fs = some fs := by
  cases hg : getKey key fs with
  | none => exact injectKey_skip_none rid hg
  | some v =>
    rw [hg] at h
    cases v with
    | obj vfs => exact injectKey_skip_scoped rid hg (by simpa [valScoped] using h)
    | str a => simp [valScoped] at h
    | num a => simp [valScoped] at h
    | bool a => simp [valScoped] at h
    | arr a => simp [valScoped] at h

theorem injectBody_id {rid : String} {fs : JDict}
    (hkeys : scopeKeys.all (fun key => valScoped (getKey key fs)) = true)
    (hct : (!hasKey "containsText" fs || hasKey "tabsCriteria" fs) = true) :
    injectBody rid fs = some fs := by
  simp only [scopeKeys, List.all_cons, List.all_nil, Bool.and_true,
    Bool.and_eq_true] at hkeys
  unfold injectBody
  simp only [injectKey_id_of_scoped hkeys.1, injectKey_id_of_scoped hkeys.2.1,
    injectKey_id_of_scoped hkeys.2.2, Option.some.injEq]
  have hcond : (hasKey "containsText" fs && !hasKey "tabsCriteria" fs) = false := by
    cases hc : hasKey "containsText" fs
    · rfl
    · rw [hc, Bool.not_true, Bool.false_or] at hct
      rw [hct]
      rfl
  rw [if_neg (by rw [hcond]; exact Bool.false_ne_true)]

theorem injectOp_id {rid : String} {op : String × JVal}
    (h : opFullyScoped op = true) : injectOp rid op = some op := by
  obtain ⟨name, v⟩ := op
  cases v with
  | obj fs =>
    unfold opFullyScoped at h
    rw [Bool.and_eq_true] at h
    simp only [injectOp, injectBody_id h.1 h.2, Option.map_some']
  | str a => rfl
  | num a => rfl
  | bool a => rfl
  | arr a => rfl

theorem injectReq_id {rid : String} {req : JDict}
    (h : req.all opFullyScoped = true) : injectReq rid req = some req := by
  induction req with
  | nil => rfl
  | cons op rest ih =>
    rw [List.all_cons, Bool.and_eq_true] at h
    unfold injectReq
    simp only [injectOp_id h.1, ih h.2]

theorem rewriteReqList_id {rid : String} {reqs : List JDict}
    (h : reqs.all (fun req => req.all opFullyScoped) = true) :
    rewriteReqList rid reqs = some reqs := by
  induction reqs with
  | nil => rfl
  | cons req rest ih =>
    rw [List.all_cons, Bool.and_eq_true] at h
    unfold rewriteReqList
    simp only [injectReq_id h.1, ih h.2]

/-- Claim C4: fields that already carry an explicit tab scope are left
untouched — rewriting a batch whose requests all carry explicit scopes
yields the same batch, for any resolved identifier — and with an empty
resolved identifier any batch is returned unmodified. -/
theorem c4_rewrite_identity (rid : String) (reqs : List JDict)
    (hall : reqs.all (fun req => req.all opFullyScoped) = true) :
    rewriteRequests rid reqs = some reqs
    ∧ (∀ reqs₀ : List JDict, rewriteRequests "" reqs₀ = some reqs₀)
    ∧ (∀ fs fs', injectBody rid fs = some fs' →
        ∀ key ∈ scopeKeys, ∀ vfs, getKey key fs = some (JVal.obj vfs) →
          hasKey "tabId" vfs = true → getKey key fs' = some (JVal.obj vfs)) := by
  refine ⟨?_, ?_, ?_⟩
  · by_cases hr : rid ≠ ""
    · rw [rewriteRequests, if_pos hr]
      exact rewriteReqList_id hall
    · rw [rewriteRequests, if_neg hr]
  · intro reqs₀
    simp [rewriteRequests]
  · intro fs fs' h key hkey vfs hg ht
    exact (injectBody_spec h).2.2 key hkey vfs hg ht

/-- Witness for `c4_rewrite_identity`: the fully scoped example batch is
returned unchanged when scoping to tab123, and the unscoped example batch
is returned unchanged under the empty identifier. -/
theorem c4_rewrite_identity_witness :
    rewriteRequests "tab123" exScopedBatch = some exScopedBatch
    ∧ rewriteRequests "" exBatch = some exBatch :=
  have h := c4_rewrite_identity "tab123" exScopedBatch (by decide)
  ⟨h.1, h.2.1 exBatch⟩

end GDocs
